import Mathlib

/-!
Verification of the renaming / overload-resolution pass of `check/src/rename.rs`
(the gluon compiler pipeline).

The development is a shallow embedding of that file.  Pure Rust functions become
Lean functions; the mutable visitor becomes explicit state passing; the
bounded mutual recursion of the tree rewriter is made total with a fuel
parameter (the Rust recursion depth is bounded by the tree, fuel `0` is never
reached on the runs the theorems speak about, and all claim statements either
hold for every fuel or are stated at an explicit sufficient fuel).

Collaborator crates that are not part of the repository snapshot under `src/`
(`base::scoped_map`, `base::ast`, `base::symbol`, the global `TypeEnv`) are
modelled from the spec; each such definition carries a doc comment saying so.
-/

/-- Symbols: the symbol interner (`base::symbol`, not under `src/`) hands out
intern-unique handles; two calls of `symbols.symbol` on the same string return
the same handle, so the faithful quotient of interned symbols is the string
itself.  `symbols.string` is then the identity. -/
abbrev Symb := String

/-- Modelled from the spec: `ast::Location` (from `base::ast`, not under
`src/`) is an opaque source position, used only through its rendered form in
`format!("{}:{}", name, location)` inside `stack_var`; we model a location by
that rendered string. -/
abbrev Location := String

/-- The structural type terms (`TcType` / `base::types::Type`, shapes relevant
to the claims: named/builtin types, generic variables identified by a stable
id, and the function arrow, curried).  Records, variants and alias
applications play no role in any claim and are omitted from the fragment. -/
inductive TcType where
  | con : Symb → TcType
  | generic : Symb → TcType
  | fn : TcType → TcType → TcType
deriving DecidableEq

/-- Size of a type term, used as the fuel bound for the equivalence check. -/
def TcType.size : TcType → Nat
  | .con _ => 1
  | .generic _ => 1
  | .fn a b => a.size + b.size + 1

/-- `ast::TcIdent`: an identifier together with the type annotation produced
by type inference. -/
structure TcIdent where
  name : Symb
  typ : TcType
deriving DecidableEq

/-- Minimal model of `base::types::Alias`, the value stored in the type-alias
scope (`stack_types`).  Nothing in the embedded fragment inserts aliases, so
the structure is inert, but the scope stack for it is kept because the
traversal opens and closes alias scopes alongside term scopes. -/
structure Alias where
  name : Symb
  typ : Option TcType
deriving DecidableEq

/-- The mutable state of `Equivalent`: the map keyed by generic ids and the
overall boolean (`struct Equivalent { map, equiv }` of rename.rs). -/
structure EqState where
  map : List (Symb × TcType)
  equiv : Bool
deriving DecidableEq

/-- Lookup in the generic-binding map (`HashMap::get` keyed by the generic's
id; entries are only inserted when absent, so the cons-list lookup agrees
with hash-map semantics). -/
def lookupGen : List (Symb × TcType) → Symb → Option TcType
  | [], _ => none
  | (k, v) :: rest, id => if k = id then some v else lookupGen rest id

/-- `Equivalent::try_match` of rename.rs (lines 350-389).  The substitution is
freshly created in `equivalent`, so `subs.real` is the identity; the
`zip_match` fallback walks matching head shapes pairwise through `try_match`
and reports `Err` exactly on a shape mismatch, upon which `*equiv = false`
and traversal of the remaining structure continues.  The first argument is
fuel: the Rust recursion is unbounded in principle (a cyclic generic-binding
chain loops), fuel only cuts runs no claim depends on. -/
def Equivalent.try_match : Nat → TcType → TcType → EqState → EqState
  | 0, _, _, s => s
  | fuel + 1, l, r, s =>
    match l, r with
    | .generic gl, .generic gr =>
      if gl = gr then s
      else
        match lookupGen s.map gl with
        | some typ => Equivalent.try_match fuel typ (.generic gr) s
        | none => { s with map := (gl, .generic gr) :: s.map }
    | .generic gl, _ =>
      match lookupGen s.map gl with
      | some typ => Equivalent.try_match fuel typ r s
      | none => { s with map := (gl, r) :: s.map }
    | .con a, .con b =>
      if a = b then s else { s with equiv := false }
    | .fn l1 l2, .fn r1 r2 =>
      Equivalent.try_match fuel l2 r2 (Equivalent.try_match fuel l1 r1 s)
    | _, _ => { s with equiv := false }

/-- Modelled from the spec: the global type environment handed to the pass
(`env: &TypeEnv`) is consumed only through `find_type(name) -> type?`; we
model it by an association list queried front-to-back. -/
def lookupType : List (Symb × TcType) → Symb → Option TcType
  | [], _ => none
  | (k, v) :: rest, id => if k = id then some v else lookupType rest id

/-- Modelled from the spec: `base::scoped_map::ScopedMap` (not under `src/`).
Per the spec's data model and design notes: a flat list of entries, newest
first, every insert shadowing rather than overwriting; each opened scope
records the entry count at entry, and closing a scope truncates back to that
count. -/
structure ScopedMap (V : Type) where
  entries : List (Symb × V)
  scopes : List Nat
deriving DecidableEq

/-- `ScopedMap::insert`: push a binding (shadowing any previous one). -/
def ScopedMap.insert (m : ScopedMap V) (k : Symb) (v : V) : ScopedMap V :=
  { m with entries := (k, v) :: m.entries }

/-- `ScopedMap::enter_scope`. -/
def ScopedMap.enter_scope (m : ScopedMap V) : ScopedMap V :=
  { m with scopes := m.entries.length :: m.scopes }

/-- `ScopedMap::exit_scope`: discard every entry introduced since the
matching `enter_scope`. -/
def ScopedMap.exit_scope (m : ScopedMap V) : ScopedMap V :=
  match m.scopes with
  | n :: rest => ⟨m.entries.drop (m.entries.length - n), rest⟩
  | [] => ⟨[], []⟩

/-- `ScopedMap::get_all`: every binding for a name across all open scopes,
oldest first (the order of gluon's per-key vector). -/
def ScopedMap.get_all (m : ScopedMap V) (k : Symb) : List V :=
  (m.entries.filterMap fun e => if e.1 = k then some e.2 else none).reverse

/-- `ScopedMap::get`: the newest binding for a name (the last element of the
per-key vector). -/
def ScopedMap.get (m : ScopedMap V) (k : Symb) : Option V :=
  (m.get_all k).getLast?

/-- `struct Environment` of rename.rs: the global type environment plus the
term scope stack (original name ↦ (renamed identity, bound type)) and the
type-alias scope stack. -/
structure Environment where
  env : List (Symb × TcType)
  stack : ScopedMap (Symb × TcType)
  stack_types : ScopedMap Alias
deriving DecidableEq

/-- `TypeEnv for Environment :: find_type` (rename.rs lines 52-55): the local
scope stack is consulted first, the global environment is only a fallback. -/
def Environment.find_type (e : Environment) (id : Symb) : Option TcType :=
  match e.stack.get id with
  | some t => some t.2
  | none => lookupType e.env id

/-- `equivalent` of rename.rs (lines 320-338): run `try_match` with an empty
generic map and `equiv = true`; the fresh `Substitution` makes variable
dereferencing the identity, and alias expansion is inert on the embedded
type fragment (no alias shapes), so the environment argument is unused here
exactly as its only use in the source is alias look-through. -/
def equivalent (env : Environment) (actual inferred : TcType) : Bool :=
  (Equivalent.try_match (actual.size + inferred.size + 1) actual inferred ⟨[], true⟩).equiv

/-- `enum RenameError` (spans of the surrounding `Spanned` are diagnostic
decoration and are dropped). -/
inductive RenameError where
  | NoMatchingType (symbol : Symb) (expected : TcType) (possible_types : List TcType)
deriving DecidableEq

/-- The candidate enumeration of `RenameVisitor::rename` (rename.rs lines
161-169): all local bindings newest first (`get_all` reversed), then the
`Environment::find_type` result paired with the *original* name. -/
def RenameVisitor.candidates (env : Environment) (id : Symb) : List (Symb × TcType) :=
  (env.stack.get_all id).reverse ++ ((env.find_type id).map fun typ => (id, typ)).toList

/-- `RenameVisitor::rename` (rename.rs lines 160-186): with at most one
candidate return the no-op `None`; otherwise return the first candidate whose
type is `equivalent` to the expected one, or a `NoMatchingType` error listing
every candidate's type. -/
def RenameVisitor.rename (env : Environment) (id : Symb) (expected : TcType) :
    Except RenameError (Option Symb) :=
  if (RenameVisitor.candidates env id).length ≤ 1 then
    Except.ok none
  else
    match (RenameVisitor.candidates env id).find? (fun tup => equivalent env tup.2 expected) with
    | some tup => Except.ok (some tup.1)
    | none =>
      Except.error (RenameError.NoMatchingType id expected
        ((RenameVisitor.candidates env id).map fun tup => tup.2))

/-- Modelled from the spec: `ast::LPattern` (from `base::ast`, not under
`src/`), restricted to the `Pattern::Identifier` shape — the pattern kind
every claim exercises; record and constructor patterns are outside the
embedded fragment. -/
structure LPattern where
  location : Location
  id : TcIdent
deriving DecidableEq

mutual
/-- Modelled from the spec: the expression shapes of `ast::Expr` (from
`base::ast`, not under `src/`) that the claims exercise; every other shape is
handled by the source's default `walk_mut_expr`, represented here by the
childless literal. -/
inductive Expr where
  | ident : TcIdent → Expr
  | lit : Nat → Expr
  | binop : LExpr → TcIdent → LExpr → Expr
  | matchE : LExpr → List (LPattern × LExpr) → Expr
  | letE : List LetBinding → LExpr → Expr
  | lambda : TcIdent → List TcIdent → LExpr → Expr

/-- `ast::LExpr`: an expression together with its source location. -/
inductive LExpr where
  | mk : Location → Expr → LExpr

/-- `ast::Binding` of a let group: pattern, positional arguments, right-hand
expression. -/
inductive LetBinding where
  | mk : LPattern → List TcIdent → LExpr → LetBinding
end

/-- Location of a located expression. -/
def LExpr.location : LExpr → Location
  | .mk l _ => l

/-- Payload of a located expression. -/
def LExpr.value : LExpr → Expr
  | .mk _ v => v

/-- Pattern of a let binding. -/
def LetBinding.name : LetBinding → LPattern
  | .mk p _ _ => p

/-- Positional arguments of a let binding. -/
def LetBinding.arguments : LetBinding → List TcIdent
  | .mk _ a _ => a

/-- Right-hand expression of a let binding. -/
def LetBinding.expression : LetBinding → LExpr
  | .mk _ _ e => e

/-- `types::arg_iter` (from `base::types`, not under `src/`): the argument
types of a function type, in declared order. -/
def arg_iter : TcType → List TcType
  | .fn a b => a :: arg_iter b
  | _ => []

/-- Modelled from the spec: `Typed::env_type_of` on expressions (from
`base::ast`, not under `src/`) reads off the type annotation produced by
inference.  In the embedded fragment its result is consumed only by
`new_pattern`, whose identifier arm ignores it (rename.rs line 116 uses the
pattern identifier's own annotation), so a shallow head reading suffices. -/
def LExpr.env_type_of (_env : Environment) : LExpr → TcType
  | .mk _ (.ident id) => id.typ
  | .mk _ (.lit _) => .con "Int"
  | .mk _ (.binop _ op _) => op.typ
  | .mk _ (.lambda id _ _) => id.typ
  | .mk _ _ => .con "Unknown"

/-- Modelled from the spec: `Typed::env_type_of` on a let binding — the
binding's annotated type, read from its pattern identifier. -/
def LetBinding.env_type_of (b : LetBinding) (_env : Environment) : TcType :=
  b.name.id.typ

/-- `bind.type_of()`: the binding's declared type (its pattern identifier's
annotation), whose `arg_iter` is zipped with the positional arguments in the
recursive-let loop. -/
def LetBinding.type_of (b : LetBinding) : TcType :=
  b.name.id.typ

/-- The recursiveness classification of a let group (rename.rs line 238):
`bindings.iter().all(|bind| !bind.arguments.is_empty())`. -/
def is_recursive (bindings : List LetBinding) : Bool :=
  bindings.all fun bind => !bind.arguments.isEmpty

/-- The visitor's mutable state: the `Environment` plus the accumulated
diagnostics (`Errors`; the surrounding spans are dropped). -/
structure RenameState where
  env : Environment
  errors : List RenameError
deriving DecidableEq

/-- `self.env.stack.enter_scope()`. -/
def RenameState.stackEnter (s : RenameState) : RenameState :=
  { s with env := { s.env with stack := s.env.stack.enter_scope } }

/-- `self.env.stack.exit_scope()`. -/
def RenameState.stackExit (s : RenameState) : RenameState :=
  { s with env := { s.env with stack := s.env.stack.exit_scope } }

/-- `self.env.stack_types.enter_scope()`. -/
def RenameState.typesEnter (s : RenameState) : RenameState :=
  { s with env := { s.env with stack_types := s.env.stack_types.enter_scope } }

/-- `self.env.stack_types.exit_scope()`. -/
def RenameState.typesExit (s : RenameState) : RenameState :=
  { s with env := { s.env with stack_types := s.env.stack_types.exit_scope } }

/-- `self.errors.error(..)` of `MutVisitor::visit_expr` (rename.rs lines
287-292): append a diagnostic and continue. -/
def RenameState.pushError (s : RenameState) (e : RenameError) : RenameState :=
  { s with errors := s.errors ++ [e] }

/-- `RenameVisitor::stack_var` (rename.rs lines 132-143): mint the renamed
identity `format!("{}:{}", name, location)`, record original ↦ (renamed,
type) in the innermost scope, return the renamed identity. -/
def RenameVisitor.stack_var (s : RenameState) (id : Symb) (location : Location)
    (typ : TcType) : Symb × RenameState :=
  let new_id := id ++ ":" ++ location
  (new_id, { s with env := { s.env with stack := s.env.stack.insert id (new_id, typ) } })

/-- `RenameVisitor::new_pattern` (rename.rs lines 89-130), identifier arm
(lines 114-118): bind the pattern name — note the bound type is the pattern
identifier's own annotation, not the passed scrutinee type — and rewrite the
pattern's name to the minted identity. -/
def RenameVisitor.new_pattern (s : RenameState) (_typ : TcType) (pattern : LPattern) :
    LPattern × RenameState :=
  let (new_name, s') :=
    RenameVisitor.stack_var s pattern.id.name pattern.location pattern.id.typ
  ({ pattern with id := { pattern.id with name := new_name } }, s')

/-- The `arg_iter(..).zip(arguments)` loops of the recursive-let and lambda
arms (rename.rs lines 249-253 and 264-266): bind each positional argument to
its declared argument type, rewriting its name; the zip stops at the shorter
list and later arguments stay untouched. -/
def stack_args (s : RenameState) (location : Location) :
    List TcType → List TcIdent → List TcIdent × RenameState
  | t :: ts, arg :: rest =>
    let (new_name, s₁) := RenameVisitor.stack_var s arg.name location t
    let (rest', s₂) := stack_args s₁ location ts rest
    ({ arg with name := new_name } :: rest', s₂)
  | _, rest => (rest, s)

mutual
/-- `MutVisitor::visit_expr` (rename.rs lines 286-293): run `rename_expr`; a
returned error is recorded against the node and traversal continues. -/
def visit_expr : Nat → LExpr → RenameState → LExpr × RenameState
  | 0, e, s => (e, s)
  | fuel + 1, e, s =>
    match rename_expr fuel e s with
    | (e', some err, s') => (e', s'.pushError err)
    | (e', none, s') => (e', s')

/-- `RenameVisitor::rename_expr` (rename.rs lines 188-281).  Returns the
rewritten node, `some err` when this node's own resolution failed (the
source's early `try!` return, which skips the rest of the arm), and the
updated state. -/
def rename_expr : Nat → LExpr → RenameState → LExpr × Option RenameError × RenameState
  | 0, e, s => (e, none, s)
  | fuel + 1, e, s =>
    match e with
    | .mk loc (.ident id) =>
      match RenameVisitor.rename s.env id.name id.typ with
      | .error err => (.mk loc (.ident id), some err, s)
      | .ok new_id => (.mk loc (.ident { id with name := new_id.getD id.name }), none, s)
    | .mk loc (.lit n) => (.mk loc (.lit n), none, s)
    | .mk loc (.binop l op r) =>
      match RenameVisitor.rename s.env op.name op.typ with
      | .error err => (.mk loc (.binop l op r), some err, s)
      | .ok new_id =>
        let op' := { op with name := new_id.getD op.name }
        let (l', s₁) := visit_expr fuel l s
        let (r', s₂) := visit_expr fuel r s₁
        (.mk loc (.binop l' op' r'), none, s₂)
    | .mk loc (.matchE scrut alts) =>
      let (scrut', s₁) := visit_expr fuel scrut s
      let (alts', s₂) := visit_alts fuel scrut' alts s₁
      (.mk loc (.matchE scrut' alts'), none, s₂)
    | .mk loc (.letE bindings expr) =>
      let s₁ := s.typesEnter.stackEnter
      let (bindings₁, s₂) := let_bind_loop fuel (is_recursive bindings) bindings s₁
      let (bindings₂, s₃) :=
        if is_recursive bindings then let_rec_loop fuel expr.location bindings₁ s₂
        else (bindings₁, s₂)
      let (expr', s₄) := visit_expr fuel expr s₃
      (.mk loc (.letE bindings₂ expr'), none, s₄.stackExit.typesExit)
    | .mk loc (.lambda id args body) =>
      let s₁ := s.stackEnter
      let (args', s₂) := stack_args s₁ loc (arg_iter id.typ) args
      let (body', s₃) := visit_expr fuel body s₂
      (.mk loc (.lambda id args' body'), none, s₃.stackExit)

/-- One iteration of the match-alternative loop (rename.rs lines 225-233):
open fresh type-alias and term scopes, bind the pattern against the
scrutinee's inferred type, visit the body, close both scopes. -/
def process_alt : Nat → LExpr → LPattern × LExpr → RenameState →
    (LPattern × LExpr) × RenameState
  | 0, _, alt, s => (alt, s)
  | fuel + 1, scrut, (pattern, body), s =>
    let s₁ := s.typesEnter.stackEnter
    let typ := scrut.env_type_of s₁.env
    let (pattern', s₂) := RenameVisitor.new_pattern s₁ typ pattern
    let (body', s₃) := visit_expr fuel body s₂
    ((pattern', body'), s₃.stackExit.typesExit)

/-- The match-alternative loop of the `Expr::Match` arm. -/
def visit_alts : Nat → LExpr → List (LPattern × LExpr) → RenameState →
    List (LPattern × LExpr) × RenameState
  | 0, _, alts, s => (alts, s)
  | _ + 1, _, [], s => ([], s)
  | fuel + 1, scrut, alt :: rest, s =>
    let (alt', s₁) := process_alt fuel scrut alt s
    let (rest', s₂) := visit_alts fuel scrut rest s₁
    (alt' :: rest', s₂)

/-- The first loop of the `Expr::Let` arm (rename.rs lines 239-245): for each
binding, visit its right-hand expression first — but only when the group is
not recursive — then bind its pattern name into the shared outer scope. -/
def let_bind_loop : Nat → Bool → List LetBinding → RenameState → List LetBinding × RenameState
  | 0, _, bindings, s => (bindings, s)
  | _ + 1, _, [], s => ([], s)
  | fuel + 1, isRec, bind :: rest, s =>
    let (e', s₁) :=
      if isRec then (bind.expression, s) else visit_expr fuel bind.expression s
    let typ := bind.env_type_of s₁.env
    let (pattern', s₂) := RenameVisitor.new_pattern s₁ typ bind.name
    let (rest', s₃) := let_bind_loop fuel isRec rest s₂
    (.mk pattern' bind.arguments e' :: rest', s₃)

/-- The second loop of the `Expr::Let` arm (rename.rs lines 246-257), run only
for a recursive group: per binding, open one nested scope, bind the
positional arguments (minted with the *let body's* location, `expr.location`),
visit the right-hand expression, close the nested scope. -/
def let_rec_loop : Nat → Location → List LetBinding → RenameState → List LetBinding × RenameState
  | 0, _, bindings, s => (bindings, s)
  | _ + 1, _, [], s => ([], s)
  | fuel + 1, location, bind :: rest, s =>
    let s₁ := s.stackEnter
    let (args', s₂) := stack_args s₁ location (arg_iter bind.type_of) bind.arguments
    let (e', s₃) := visit_expr fuel bind.expression s₂
    let s₄ := s₃.stackExit
    let (rest', s₅) := let_rec_loop fuel location rest s₄
    (.mk bind.name args' e' :: rest', s₅)
end

/-- The entry point `rename` (rename.rs lines 66-311): build a fresh
`Environment` over the supplied global type environment, visit the tree, and
return the rewritten tree together with the accumulated diagnostics (the
source mutates the tree in place and returns `Err(errors)` exactly when the
list is non-empty). -/
def rename (env : List (Symb × TcType)) (fuel : Nat) (expr : LExpr) :
    LExpr × List RenameError :=
  let (expr', s) := visit_expr fuel expr ⟨⟨env, ⟨[], []⟩, ⟨[], []⟩⟩, []⟩
  (expr', s.errors)

/-! ### Projections used to observe rewritten trees -/

/-- The identifier name sitting at the right-hand side of the `i`-th binding
of a let expression, when that right-hand side is a bare identifier. -/
def letBindRhsName (e : LExpr) (i : Nat) : Option Symb :=
  match e with
  | .mk _ (.letE bindings _) =>
    match bindings[i]? with
    | some bind =>
      match bind.expression with
      | .mk _ (.ident id) => some id.name
      | _ => none
    | none => none
  | _ => none

/-- The name of the `j`-th positional argument of the `i`-th binding of a let
expression. -/
def letBindArgName (e : LExpr) (i j : Nat) : Option Symb :=
  match e with
  | .mk _ (.letE bindings _) =>
    match bindings[i]? with
    | some bind => (bind.arguments[j]?).map fun arg => arg.name
    | none => none
  | _ => none

/-- The visited state leaves both scope stacks and the global environment
untouched and only appends diagnostics. -/
def StPres (s s' : RenameState) : Prop :=
  s'.env.stack = s.env.stack ∧ s'.env.stack_types = s.env.stack_types ∧
  s'.env.env = s.env.env ∧ ∃ es, s'.errors = s.errors ++ es

/-- The state only pushed new entries onto the open term scope (and only
appended diagnostics); scope markers, alias scopes and global environment are
untouched. -/
def StExt (s s' : RenameState) : Prop :=
  (∃ xs, s'.env.stack.entries = xs ++ s.env.stack.entries) ∧
  s'.env.stack.scopes = s.env.stack.scopes ∧
  s'.env.stack_types = s.env.stack_types ∧
  s'.env.env = s.env.env ∧ ∃ es, s'.errors = s.errors ++ es

/-! ### Scope-stack lemmas -/

theorem ScopedMap.get_all_enter (m : ScopedMap V) (k : Symb) :
    m.enter_scope.get_all k = m.get_all k := rfl

theorem ScopedMap.get_all_insert_self (m : ScopedMap V) (k : Symb) (v : V) :
    (m.insert k v).get_all k = m.get_all k ++ [v] := by
  simp [ScopedMap.get_all, ScopedMap.insert]

theorem ScopedMap.get_all_insert_ne (m : ScopedMap V) (k k' : Symb) (v : V)
    (h : k ≠ k') : (m.insert k v).get_all k' = m.get_all k' := by
  simp [ScopedMap.get_all, ScopedMap.insert, h]

theorem ScopedMap.exit_extend (m : ScopedMap V) (xs : List (Symb × V)) :
    ScopedMap.exit_scope ⟨xs ++ m.entries, m.entries.length :: m.scopes⟩ = m := by
  simp [ScopedMap.exit_scope]

/-! ### Equivalence-checker lemmas -/

theorem Equivalent.try_match_self (t : TcType) : ∀ (fuel : Nat) (s : EqState),
    t.size ≤ fuel → Equivalent.try_match fuel t t s = s := by
  induction t with
  | con a =>
    intro fuel s h
    match fuel, h with
    | fuel + 1, _ => simp [Equivalent.try_match]
  | generic g =>
    intro fuel s h
    match fuel, h with
    | fuel + 1, _ => simp [Equivalent.try_match]
  | fn a b iha ihb =>
    intro fuel s h
    match fuel, h with
    | fuel + 1, h =>
      have ha : a.size ≤ fuel := by simp [TcType.size] at h; omega
      have hb : b.size ≤ fuel := by simp [TcType.size] at h; omega
      simp [Equivalent.try_match, iha fuel s ha, ihb fuel _ hb]

/-- Reflexivity of the equivalence check. -/
theorem equivalent_refl (env : Environment) (t : TcType) : equivalent env t t = true := by
  rw [equivalent, Equivalent.try_match_self t _ _ (by omega)]

/-! ### Resolver lemmas -/

theorem rename_no_locals (env : Environment) (id : Symb) (expected : TcType)
    (h : env.stack.get_all id = []) :
    RenameVisitor.rename env id expected = Except.ok none := by
  have hget : env.stack.get id = none := by simp [ScopedMap.get, h]
  have hc : RenameVisitor.candidates env id
      = ((lookupType env.env id).map fun typ => (id, typ)).toList := by
    simp [RenameVisitor.candidates, h, Environment.find_type, hget]
  rw [RenameVisitor.rename, hc]
  cases lookupType env.env id <;> simp

theorem candidates_with_locals (env : Environment) (id : Symb) (p : Symb × TcType)
    (h : (env.stack.get_all id).getLast? = some p) :
    RenameVisitor.candidates env id = (env.stack.get_all id).reverse ++ [(id, p.2)] := by
  simp [RenameVisitor.candidates, Environment.find_type, ScopedMap.get, h]

theorem rename_single_local (env : Environment) (id n : Symb) (t expected : TcType)
    (h : env.stack.get_all id = [(n, t)]) (heq : equivalent env t expected = true) :
    RenameVisitor.rename env id expected = Except.ok (some n) := by
  have hc : RenameVisitor.candidates env id = [(n, t), (id, t)] := by
    have := candidates_with_locals env id (n, t) (by rw [h]; rfl)
    rw [h] at this
    simpa using this
  rw [RenameVisitor.rename, hc]
  simp [List.find?, heq]

/-! ### Pointwise visitor-step lemmas -/

theorem visit_lit (fuel : Nat) (loc : Location) (n : Nat) (s : RenameState) :
    visit_expr fuel (.mk loc (.lit n)) s = (.mk loc (.lit n), s) := by
  match fuel with
  | 0 => rfl
  | 1 => rfl
  | _ + 2 => rfl

theorem visit_ident_noop (fuel : Nat) (loc : Location) (id : TcIdent) (s : RenameState)
    (h : RenameVisitor.rename s.env id.name id.typ = Except.ok none) :
    visit_expr (fuel + 2) (.mk loc (.ident id)) s = (.mk loc (.ident id), s) := by
  simp only [visit_expr, rename_expr, h]
  rfl

theorem visit_ident_renamed (fuel : Nat) (loc : Location) (id : TcIdent) (n : Symb)
    (s : RenameState)
    (h : RenameVisitor.rename s.env id.name id.typ = Except.ok (some n)) :
    visit_expr (fuel + 2) (.mk loc (.ident id)) s = (.mk loc (.ident ⟨n, id.typ⟩), s) := by
  simp only [visit_expr, rename_expr, h]
  rfl

theorem visit_ident_error (fuel : Nat) (loc : Location) (id : TcIdent) (err : RenameError)
    (s : RenameState)
    (h : RenameVisitor.rename s.env id.name id.typ = Except.error err) :
    visit_expr (fuel + 2) (.mk loc (.ident id)) s = (.mk loc (.ident id), s.pushError err) := by
  simp only [visit_expr, rename_expr, h]

/-! ### State preservation of the traversal

The key invariant behind the scope-isolation claims: every complete visit of
an expression leaves the term scope stack, the type-alias scope stack and the
global environment exactly as они were, and only ever appends diagnostics. -/

theorem pres_self (s : RenameState) : StPres s s :=
  ⟨rfl, rfl, rfl, [], by simp⟩

theorem pres_trans {s t u : RenameState} (h1 : StPres s t) (h2 : StPres t u) : StPres s u := by
  obtain ⟨a1, a2, a3, es1, he1⟩ := h1
  obtain ⟨b1, b2, b3, es2, he2⟩ := h2
  exact ⟨b1.trans a1, b2.trans a2, b3.trans a3, es1 ++ es2, by rw [he2, he1, List.append_assoc]⟩

theorem pres_ext {s t : RenameState} (h : StPres s t) : StExt s t := by
  obtain ⟨a1, a2, a3, es, he⟩ := h
  exact ⟨⟨[], by rw [a1]; rfl⟩, by rw [a1], a2, a3, es, he⟩

theorem ext_trans {s t u : RenameState} (h1 : StExt s t) (h2 : StExt t u) : StExt s u := by
  obtain ⟨⟨xs1, ha1⟩, a2, a3, a4, es1, he1⟩ := h1
  obtain ⟨⟨xs2, hb1⟩, b2, b3, b4, es2, he2⟩ := h2
  exact ⟨⟨xs2 ++ xs1, by rw [hb1, ha1, List.append_assoc]⟩, b2.trans a2, b3.trans a3,
    b4.trans a4, es1 ++ es2, by rw [he2, he1, List.append_assoc]⟩

theorem pushError_pres_errors (s : RenameState) (e : RenameError) :
    StPres s (s.pushError e) := by
  refine ⟨rfl, rfl, rfl, [e], rfl⟩

theorem stack_var_ext (s : RenameState) (id : Symb) (loc : Location) (typ : TcType) :
    StExt s (RenameVisitor.stack_var s id loc typ).2 := by
  exact ⟨⟨[(id, (id ++ ":" ++ loc, typ))], rfl⟩, rfl, rfl, rfl, [], by
    simp [RenameVisitor.stack_var]⟩

theorem new_pattern_ext (s : RenameState) (typ : TcType) (p : LPattern) :
    StExt s (RenameVisitor.new_pattern s typ p).2 :=
  stack_var_ext s p.id.name p.location p.id.typ

theorem stack_args_ext (loc : Location) :
    ∀ (ts : List TcType) (args : List TcIdent) (s : RenameState),
    StExt s (stack_args s loc ts args).2 := by
  intro ts
  induction ts with
  | nil => intro args s; exact pres_ext (pres_self s)
  | cons t ts ih =>
    intro args s
    cases args with
    | nil => exact pres_ext (pres_self s)
    | cons arg rest =>
      have h1 := stack_var_ext s arg.name loc t
      have h2 := ih rest (RenameVisitor.stack_var s arg.name loc t).2
      simpa [stack_args] using ext_trans h1 h2

theorem exit_of_ext {V : Type} {m m' : ScopedMap V} {xs : List (Symb × V)}
    (h1 : m'.entries = xs ++ m.entries)
    (h2 : m'.scopes = m.entries.length :: m.scopes) :
    m'.exit_scope = m := by
  have hm : m' = ⟨xs ++ m.entries, m.entries.length :: m.scopes⟩ := by
    cases m'; cases m; simp_all
  rw [hm, ScopedMap.exit_extend]

theorem let_scope_close {s s₄ : RenameState} (h : StExt s.typesEnter.stackEnter s₄) :
    StPres s s₄.stackExit.typesExit := by
  obtain ⟨⟨xs, h1⟩, h2, h3, h4, es, he⟩ := h
  have h1' : s₄.env.stack.entries = xs ++ s.env.stack.entries := h1
  have h2' : s₄.env.stack.scopes = s.env.stack.entries.length :: s.env.stack.scopes := h2
  have h3a : s₄.env.stack_types.entries = [] ++ s.env.stack_types.entries := by rw [h3]; rfl
  have h3b : s₄.env.stack_types.scopes
      = s.env.stack_types.entries.length :: s.env.stack_types.scopes := by rw [h3]; rfl
  exact ⟨exit_of_ext h1' h2', exit_of_ext h3a h3b, h4, es, he⟩

theorem lambda_scope_close {s s₃ : RenameState} (h : StExt s.stackEnter s₃) :
    StPres s s₃.stackExit := by
  obtain ⟨⟨xs, h1⟩, h2, h3, h4, es, he⟩ := h
  have h1' : s₃.env.stack.entries = xs ++ s.env.stack.entries := h1
  have h2' : s₃.env.stack.scopes = s.env.stack.entries.length :: s.env.stack.scopes := h2
  exact ⟨exit_of_ext h1' h2', h3, h4, es, he⟩

/-- Master invariant of the traversal: visiting any expression restores the
term scope stack, the type-alias scope stack and the global environment
exactly, and only appends to the diagnostics; the let-binding loop only
pushes entries onto the currently open scope. -/
theorem visitor_state : ∀ fuel : Nat,
    (∀ e s, StPres s (visit_expr fuel e s).2) ∧
    (∀ e s, StPres s (rename_expr fuel e s).2.2) ∧
    (∀ scrut alt s, StPres s (process_alt fuel scrut alt s).2) ∧
    (∀ scrut alts s, StPres s (visit_alts fuel scrut alts s).2) ∧
    (∀ isRec bindings s, StExt s (let_bind_loop fuel isRec bindings s).2) ∧
    (∀ location bindings s, StPres s (let_rec_loop fuel location bindings s).2) := by
  intro fuel
  induction fuel with
  | zero =>
    exact ⟨fun e s => pres_self s, fun e s => pres_self s, fun _ _ s => pres_self s,
      fun _ _ s => pres_self s, fun _ _ s => pres_ext (pres_self s),
      fun _ _ s => pres_self s⟩
  | succ fuel ih =>
    obtain ⟨ihv, ihr, ihp, iha, ihb, ihl⟩ := ih
    refine ⟨?_, ?_, ?_, ?_, ?_, ?_⟩
    · intro e s
      have hr := ihr e s
      rcases h : rename_expr fuel e s with ⟨e', err, s'⟩
      rw [h] at hr
      cases err with
      | none => simp only [visit_expr, h]; exact hr
      | some err =>
        simp only [visit_expr, h]
        exact pres_trans hr (pushError_pres_errors s' err)
    · intro e s
      rcases e with ⟨loc, v⟩
      cases v with
      | ident id =>
        cases h : RenameVisitor.rename s.env id.name id.typ with
        | error err => simp only [rename_expr, h]; exact pres_self s
        | ok new_id => simp only [rename_expr, h]; exact pres_self s
      | lit n => exact pres_self s
      | binop l op r =>
        cases h : RenameVisitor.rename s.env op.name op.typ with
        | error err => simp only [rename_expr, h]; exact pres_self s
        | ok new_id =>
          rcases h1 : visit_expr fuel l s with ⟨l', s₁⟩
          rcases h2 : visit_expr fuel r s₁ with ⟨r', s₂⟩
          have p1 := ihv l s; rw [h1] at p1
          have p2 := ihv r s₁; rw [h2] at p2
          simp only [rename_expr, h, h1, h2]
          exact pres_trans p1 p2
      | matchE scrut alts =>
        rcases h1 : visit_expr fuel scrut s with ⟨scrut', s₁⟩
        rcases h2 : visit_alts fuel scrut' alts s₁ with ⟨alts', s₂⟩
        have p1 := ihv scrut s; rw [h1] at p1
        have p2 := iha scrut' alts s₁; rw [h2] at p2
        simp only [rename_expr, h1, h2]
        exact pres_trans p1 p2
      | letE bindings expr =>
        cases hR : is_recursive bindings with
        | false =>
          rcases hb : let_bind_loop fuel false bindings s.typesEnter.stackEnter with ⟨bs₁, s₂⟩
          have eb := ihb false bindings s.typesEnter.stackEnter
          rw [hb] at eb
          rcases hv : visit_expr fuel expr s₂ with ⟨e', s₄⟩
          have pv := ihv expr s₂; rw [hv] at pv
          simp only [rename_expr, hR, hb, hv, Bool.false_eq_true, if_false]
          exact let_scope_close (ext_trans eb (pres_ext pv))
        | true =>
          rcases hb : let_bind_loop fuel true bindings s.typesEnter.stackEnter with ⟨bs₁, s₂⟩
          have eb := ihb true bindings s.typesEnter.stackEnter
          rw [hb] at eb
          rcases hr2 : let_rec_loop fuel expr.location bs₁ s₂ with ⟨bs₂, s₃⟩
          have pr2 := ihl expr.location bs₁ s₂; rw [hr2] at pr2
          rcases hv : visit_expr fuel expr s₃ with ⟨e', s₄⟩
          have pv := ihv expr s₃; rw [hv] at pv
          simp only [rename_expr, hR, hb, hr2, hv, if_true]
          exact let_scope_close (ext_trans eb (ext_trans (pres_ext pr2) (pres_ext pv)))
      | lambda id args body =>
        rcases ha : stack_args s.stackEnter loc (arg_iter id.typ) args with ⟨args', s₂⟩
        have e1 := stack_args_ext loc (arg_iter id.typ) args s.stackEnter
        rw [ha] at e1
        rcases hv : visit_expr fuel body s₂ with ⟨body', s₃⟩
        have pv := ihv body s₂; rw [hv] at pv
        simp only [rename_expr, ha, hv]
        exact lambda_scope_close (ext_trans e1 (pres_ext pv))
    · intro scrut alt s
      rcases alt with ⟨pattern, body⟩
      rcases hp : RenameVisitor.new_pattern s.typesEnter.stackEnter
          (scrut.env_type_of s.typesEnter.stackEnter.env) pattern with ⟨pat', s₂⟩
      have e1 := new_pattern_ext s.typesEnter.stackEnter
        (scrut.env_type_of s.typesEnter.stackEnter.env) pattern
      rw [hp] at e1
      rcases hv : visit_expr fuel body s₂ with ⟨body', s₃⟩
      have p2 := ihv body s₂; rw [hv] at p2
      simp only [process_alt, hp, hv]
      exact let_scope_close (ext_trans e1 (pres_ext p2))
    · intro scrut alts s
      cases alts with
      | nil => exact pres_self s
      | cons alt rest =>
        rcases h1 : process_alt fuel scrut alt s with ⟨alt', s₁⟩
        rcases h2 : visit_alts fuel scrut rest s₁ with ⟨rest', s₂⟩
        have p1 := ihp scrut alt s; rw [h1] at p1
        have p2 := iha scrut rest s₁; rw [h2] at p2
        simp only [visit_alts, h1, h2]
        exact pres_trans p1 p2
    · intro isRec bindings s
      cases bindings with
      | nil => exact pres_ext (pres_self s)
      | cons bind rest =>
        cases isRec with
        | true =>
          rcases hp : RenameVisitor.new_pattern s (bind.env_type_of s.env) bind.name
            with ⟨p', s₂⟩
          have e1 := new_pattern_ext s (bind.env_type_of s.env) bind.name
          rw [hp] at e1
          rcases h3 : let_bind_loop fuel true rest s₂ with ⟨rest', s₃⟩
          have e2 := ihb true rest s₂; rw [h3] at e2
          simp only [let_bind_loop, hp, h3, if_true]
          exact ext_trans e1 e2
        | false =>
          rcases hv : visit_expr fuel bind.expression s with ⟨e', s₁⟩
          have p1 := ihv bind.expression s; rw [hv] at p1
          rcases hp : RenameVisitor.new_pattern s₁ (bind.env_type_of s₁.env) bind.name
            with ⟨p', s₂⟩
          have e1 := new_pattern_ext s₁ (bind.env_type_of s₁.env) bind.name
          rw [hp] at e1
          rcases h3 : let_bind_loop fuel false rest s₂ with ⟨rest', s₃⟩
          have e2 := ihb false rest s₂; rw [h3] at e2
          simp only [let_bind_loop, hv, hp, h3, Bool.false_eq_true, if_false]
          exact ext_trans (pres_ext p1) (ext_trans e1 e2)
    · intro location bindings s
      cases bindings with
      | nil => exact pres_self s
      | cons bind rest =>
        rcases ha : stack_args s.stackEnter location (arg_iter bind.type_of) bind.arguments
          with ⟨args', s₂⟩
        have e1 := stack_args_ext location (arg_iter bind.type_of) bind.arguments s.stackEnter
        rw [ha] at e1
        rcases hv : visit_expr fuel bind.expression s₂ with ⟨e', s₃⟩
        have p2 := ihv bind.expression s₂; rw [hv] at p2
        have close : StPres s s₃.stackExit :=
          lambda_scope_close (ext_trans e1 (pres_ext p2))
        rcases hl : let_rec_loop fuel location rest s₃.stackExit with ⟨rest', s₅⟩
        have p5 := ihl location rest s₃.stackExit; rw [hl] at p5
        simp only [let_rec_loop, ha, hv, hl]
        exact pres_trans close p5

/-! ### Injectivity of the minted identities on colon-free names -/

theorem append_colon_inj (c : Char) :
    ∀ (xs₁ xs₂ ys₁ ys₂ : List Char), c ∉ xs₁ → c ∉ xs₂ →
    xs₁ ++ c :: ys₁ = xs₂ ++ c :: ys₂ → xs₁ = xs₂ ∧ ys₁ = ys₂ := by
  intro xs₁
  induction xs₁ with
  | nil =>
    intro xs₂ ys₁ ys₂ _ h2 h
    cases xs₂ with
    | nil => simpa using h
    | cons d ds =>
      simp only [List.nil_append, List.cons_append, List.cons.injEq] at h
      exact absurd (h.1 ▸ List.mem_cons_self d ds) h2
  | cons a as ih =>
    intro xs₂ ys₁ ys₂ h1 h2 h
    cases xs₂ with
    | nil =>
      simp only [List.nil_append, List.cons_append, List.cons.injEq] at h
      exact absurd (show c ∈ a :: as by rw [h.1]; exact List.mem_cons_self c as) h1
    | cons d ds =>
      simp only [List.cons_append, List.cons.injEq] at h
      have h1' : c ∉ as := fun hm => h1 (List.mem_cons_of_mem a hm)
      have h2' : c ∉ ds := fun hm => h2 (List.mem_cons_of_mem d hm)
      obtain ⟨e1, e2⟩ := ih ds ys₁ ys₂ h1' h2' h.2
      exact ⟨by rw [h.1, e1], e2⟩

theorem mint_inj (id₁ id₂ loc₁ loc₂ : String)
    (hc1 : ':' ∉ id₁.data) (hc2 : ':' ∉ id₂.data)
    (h : id₁ ++ ":" ++ loc₁ = id₂ ++ ":" ++ loc₂) : id₁ = id₂ ∧ loc₁ = loc₂ := by
  have hd : id₁.data ++ ':' :: loc₁.data = id₂.data ++ ':' :: loc₂.data := by
    have hh := congrArg String.data h
    simpa [String.data_append] using hh
  obtain ⟨e1, e2⟩ := append_colon_inj ':' id₁.data id₂.data loc₁.data loc₂.data hc1 hc2 hd
  exact ⟨String.ext e1, String.ext e2⟩

/-! ### Claim C8 -/

/-- C8 counterexample: in `equivalent (g → g) (Int → g)` the generic `g` is
bound to `Int` at its first occurrence, and its second occurrence corresponds
to the structure `g` itself, which does not match the bound value `Int`; the
claim therefore demands an overall `false`, yet the check returns `true`,
because the `gl == gr` arm of `try_match` accepts two identical generics
without ever consulting the binding map. -/
theorem c8_counterexample :
    equivalent ⟨[], ⟨[], []⟩, ⟨[], []⟩⟩
      (TcType.fn (TcType.generic "g") (TcType.generic "g"))
      (TcType.fn (TcType.con "Int") (TcType.generic "g")) = true ∧
    (Equivalent.try_match 7
      (TcType.fn (TcType.generic "g") (TcType.generic "g"))
      (TcType.fn (TcType.con "Int") (TcType.generic "g")) ⟨[], true⟩).map
      = [("g", TcType.con "Int")] :=
  ⟨rfl, rfl⟩

/-- C8 (amended): a generic in the first operand is bound on first encounter
to the corresponding structure of the second operand, keyed by its id, and a
later occurrence is checked against the previously bound value — except that
a position where both operands carry the *identical* generic is accepted
without consulting the map; a mismatch at any depth drives the overall
boolean to `false` and, traversal never aborting, it stays `false`. -/
theorem c8_generic_binding :
    (∀ (fuel : Nat) (gl : Symb) (r : TcType) (s : EqState),
      lookupGen s.map gl = none → r ≠ TcType.generic gl →
      Equivalent.try_match (fuel + 1) (TcType.generic gl) r s
        = { s with map := (gl, r) :: s.map }) ∧
    (∀ (fuel : Nat) (gl : Symb) (r t : TcType) (s : EqState),
      lookupGen s.map gl = some t → r ≠ TcType.generic gl →
      Equivalent.try_match (fuel + 1) (TcType.generic gl) r s
        = Equivalent.try_match fuel t r s) ∧
    (∀ (fuel : Nat) (g : Symb) (s : EqState),
      Equivalent.try_match (fuel + 1) (TcType.generic g) (TcType.generic g) s = s) ∧
    (∀ (fuel : Nat) (l r : TcType) (s : EqState), s.equiv = false →
      (Equivalent.try_match fuel l r s).equiv = false) := by
  refine ⟨?_, ?_, ?_, ?_⟩
  · intro fuel gl r s hl hr
    cases r with
    | generic gr =>
      have hne : ¬gl = gr := fun e => hr (by rw [e])
      simp [Equivalent.try_match, hne, hl]
    | con a => simp [Equivalent.try_match, hl]
    | fn a b => simp [Equivalent.try_match, hl]
  · intro fuel gl r t s hl hr
    cases r with
    | generic gr =>
      have hne : ¬gl = gr := fun e => hr (by rw [e])
      simp [Equivalent.try_match, hne, hl]
    | con a => simp [Equivalent.try_match, hl]
    | fn a b => simp [Equivalent.try_match, hl]
  · intro fuel g s
    simp [Equivalent.try_match]
  · intro fuel
    induction fuel with
    | zero => intro l r s h; simpa [Equivalent.try_match] using h
    | succ fuel ih =>
      intro l r s h
      cases l with
      | generic gl =>
        cases r with
        | generic gr =>
          by_cases hg : gl = gr
          · simpa [Equivalent.try_match, hg] using h
          · cases hl : lookupGen s.map gl with
            | some t => simpa [Equivalent.try_match, hg, hl] using ih t (.generic gr) s h
            | none => simpa [Equivalent.try_match, hg, hl] using h
        | con a =>
          cases hl : lookupGen s.map gl with
          | some t => simpa [Equivalent.try_match, hl] using ih t (.con a) s h
          | none => simpa [Equivalent.try_match, hl] using h
        | fn a b =>
          cases hl : lookupGen s.map gl with
          | some t => simpa [Equivalent.try_match, hl] using ih t (.fn a b) s h
          | none => simpa [Equivalent.try_match, hl] using h
      | con a =>
        cases r with
        | generic gr => simp [Equivalent.try_match]
        | con b =>
          by_cases hab : a = b
          · simpa [Equivalent.try_match, hab] using h
          · simp [Equivalent.try_match, hab]
        | fn f1 f2 => simp [Equivalent.try_match]
      | fn l1 l2 =>
        cases r with
        | generic gr => simp [Equivalent.try_match]
        | con b => simp [Equivalent.try_match]
        | fn r1 r2 =>
          simpa [Equivalent.try_match] using ih l2 r2 _ (ih l1 r1 s h)

/-- Witness for `c8_generic_binding` at concrete inputs. -/
theorem c8_generic_binding_witness :
    lookupGen ([] : List (Symb × TcType)) "g" = none ∧
    (TcType.con "Int" ≠ TcType.generic "g") ∧
    Equivalent.try_match 1 (TcType.generic "g") (TcType.con "Int") ⟨[], true⟩
      = ⟨[("g", TcType.con "Int")], true⟩ :=
  ⟨rfl, by decide, c8_generic_binding.1 0 "g" (TcType.con "Int") ⟨[], true⟩ rfl (by decide)⟩

/-! ### Claim C9 -/

/-- C9 counterexample: two generic variables with different ids are judged
*equivalent* (the first is simply bound to the second), not non-equivalent as
the claim states. -/
theorem c9_counterexample :
    equivalent ⟨[], ⟨[], []⟩, ⟨[], []⟩⟩ (TcType.generic "a") (TcType.generic "b") = true ∧
    TcType.generic "a" ≠ TcType.generic "b" :=
  ⟨rfl, by decide⟩

/-- C9 (amended): identical generics are accepted; a first-operand generic
with a *different* id is not rejected either — on first encounter it is bound
to the second operand's generic and the pair is judged equivalent; two
different generic ids are judged non-equivalent only through a previously
recorded binding that fails to match. -/
theorem c9_generic_mismatch :
    (∀ (env : Environment) (g h : Symb),
      equivalent env (TcType.generic g) (TcType.generic h) = true) ∧
    (∀ (env : Environment) (b : Symb),
      equivalent env (TcType.fn (TcType.generic "a") (TcType.generic "a"))
        (TcType.fn (TcType.con b) (TcType.generic "c")) = false) := by
  constructor
  · intro env g h
    by_cases hg : g = h <;>
      simp [equivalent, Equivalent.try_match, TcType.size, hg, lookupGen]
  · intro env b
    simp [equivalent, Equivalent.try_match, TcType.size, lookupGen]

/-! ### Claim C1 -/

/-- C1 counterexample: a name with exactly one local-stack binding and no
global-environment binding — one visible candidate under the claim's count of
"local bindings plus the global binding, if any" — is nonetheless
equivalence-checked, and produces `NoMatchingType` when the single binding's
type is not equivalent to the expected one: `Environment::find_type` prefers
the newest local binding, so the code counts it a second time and sees two
candidates. -/
theorem c1_counterexample :
    (ScopedMap.get_all (V := Symb × TcType) ⟨[("x", ("x:1", TcType.con "Bool"))], []⟩ "x").length
        + (lookupType [] "x").toList.length = 1 ∧
    RenameVisitor.rename ⟨[], ⟨[("x", ("x:1", TcType.con "Bool"))], []⟩, ⟨[], []⟩⟩ "x"
        (TcType.con "Int")
      = Except.error (RenameError.NoMatchingType "x" (TcType.con "Int")
          [TcType.con "Bool", TcType.con "Bool"]) :=
  ⟨rfl, rfl⟩

/-- C1 (amended): the resolver takes the no-op path exactly on the *code's*
candidate count — local bindings plus the `Environment::find_type` result,
which duplicates the newest local binding whenever one exists — being at most
one; equivalently, whenever the name has no local-stack binding at all, the
resolver returns the no-op outcome: no equivalence check, no
`NoMatchingType`, reference left unchanged. -/
theorem c1_no_locals_noop (env : Environment) (id : Symb) (expected : TcType)
    (h : env.stack.get_all id = []) :
    RenameVisitor.rename env id expected = Except.ok none :=
  rename_no_locals env id expected h

/-- Witness for `c1_no_locals_noop`: no local binding, a global binding of a
non-matching type — still the no-op outcome. -/
theorem c1_no_locals_noop_witness :
    (ScopedMap.get_all (V := Symb × TcType) ⟨[], []⟩ "x") = [] ∧
    RenameVisitor.rename ⟨[("x", TcType.con "Int")], ⟨[], []⟩, ⟨[], []⟩⟩ "x" (TcType.con "Bool")
      = Except.ok none :=
  ⟨rfl, c1_no_locals_noop ⟨[("x", TcType.con "Int")], ⟨[], []⟩, ⟨[], []⟩⟩ "x" (TcType.con "Bool") rfl⟩

/-! ### Claim C2 -/

/-- C2 counterexample: one local binding of type `Int`, a global-environment
binding of type `Bool`, expected type `Bool`.  Under the claim's scan order
the global binding comes last and matches, so resolution should succeed; the
code instead reports `NoMatchingType` whose candidate list is `[Int, Int]` —
the global environment's binding is never among the candidates (the final
candidate repeats the newest local binding's type). -/
theorem c2_counterexample :
    lookupType [("x", TcType.con "Bool")] "x" = some (TcType.con "Bool") ∧
    equivalent ⟨[("x", TcType.con "Bool")], ⟨[("x", ("x:1", TcType.con "Int"))], []⟩, ⟨[], []⟩⟩
      (TcType.con "Bool") (TcType.con "Bool") = true ∧
    RenameVisitor.rename
      ⟨[("x", TcType.con "Bool")], ⟨[("x", ("x:1", TcType.con "Int"))], []⟩, ⟨[], []⟩⟩ "x"
      (TcType.con "Bool")
      = Except.error (RenameError.NoMatchingType "x" (TcType.con "Bool")
          [TcType.con "Int", TcType.con "Int"]) :=
  ⟨rfl, rfl, rfl⟩

/-- C2 (amended): with at least one local binding (which is what two or more
candidates requires), the scan list is all local bindings newest first
followed by one final candidate pairing the *original* name with the newest
local binding's type — the global environment's binding never appears — and
the resolver returns the identity of the first candidate in that order whose
type is `equivalent` to the expected type, or a `NoMatchingType` carrying
every candidate's type when none is. -/
theorem c2_scan_order (env : Environment) (id : Symb) (expected : TcType)
    (p : Symb × TcType) (h : (env.stack.get_all id).getLast? = some p) :
    RenameVisitor.rename env id expected =
      match ((env.stack.get_all id).reverse ++ [(id, p.2)]).find?
          (fun tup => equivalent env tup.2 expected) with
      | some tup => Except.ok (some tup.1)
      | none => Except.error (RenameError.NoMatchingType id expected
          (((env.stack.get_all id).reverse ++ [(id, p.2)]).map fun tup => tup.2)) := by
  have hc := candidates_with_locals env id p h
  have hne : env.stack.get_all id ≠ [] := by
    intro hnil; rw [hnil] at h; simp at h
  have hlen : ¬(RenameVisitor.candidates env id).length ≤ 1 := by
    rw [hc]
    have hpos : 0 < (env.stack.get_all id).length := List.length_pos.mpr hne
    simp only [List.length_append, List.length_reverse, List.length_cons, List.length_nil]
    omega
  rw [RenameVisitor.rename, if_neg hlen, hc]

/-- Witness for `c2_scan_order`: two shadowed local bindings; the newest does
not match, the older one does, and the resolver returns the older minted
identity — the second candidate in scan order. -/
theorem c2_scan_order_witness :
    ((ScopedMap.get_all (V := Symb × TcType)
        ⟨[("x", ("x:2", TcType.con "B")), ("x", ("x:1", TcType.con "A"))], []⟩ "x").getLast?
      = some ("x:2", TcType.con "B")) ∧
    RenameVisitor.rename
        ⟨[], ⟨[("x", ("x:2", TcType.con "B")), ("x", ("x:1", TcType.con "A"))], []⟩, ⟨[], []⟩⟩
        "x" (TcType.con "A")
      = Except.ok (some "x:1") := by
  refine ⟨rfl, ?_⟩
  rw [c2_scan_order
    ⟨[], ⟨[("x", ("x:2", TcType.con "B")), ("x", ("x:1", TcType.con "A"))], []⟩, ⟨[], []⟩⟩
    "x" (TcType.con "A") ("x:2", TcType.con "B") rfl]
  rfl

/-! ### Claim C10 -/

/-- C10: whenever at least one local binding exists, the candidate list does
not depend on the global type environment at all, and its final element pairs
the original (unrenamed) name with the most-recently-pushed local binding's
type — `Environment::find_type` consults the scope stack before the global
environment. -/
theorem c10_final_candidate (g₁ g₂ : List (Symb × TcType))
    (stack : ScopedMap (Symb × TcType)) (st : ScopedMap Alias) (id : Symb)
    (p : Symb × TcType) (h : (stack.get_all id).getLast? = some p) :
    RenameVisitor.candidates ⟨g₁, stack, st⟩ id = RenameVisitor.candidates ⟨g₂, stack, st⟩ id ∧
    (RenameVisitor.candidates ⟨g₁, stack, st⟩ id).getLast? = some (id, p.2) := by
  have h1 := candidates_with_locals ⟨g₁, stack, st⟩ id p h
  have h2 := candidates_with_locals ⟨g₂, stack, st⟩ id p h
  refine ⟨by rw [h1, h2], ?_⟩
  rw [h1]
  simp

/-- Witness for `c10_final_candidate`: one local `Int` binding, a global
`Bool` binding; the candidates ignore the global environment and end with
`(x, Int)`. -/
theorem c10_final_candidate_witness :
    ((ScopedMap.get_all (V := Symb × TcType) ⟨[("x", ("x:1", TcType.con "Int"))], []⟩ "x").getLast?
      = some ("x:1", TcType.con "Int")) ∧
    (RenameVisitor.candidates
        ⟨[("x", TcType.con "Bool")], ⟨[("x", ("x:1", TcType.con "Int"))], []⟩, ⟨[], []⟩⟩ "x"
      = RenameVisitor.candidates ⟨[], ⟨[("x", ("x:1", TcType.con "Int"))], []⟩, ⟨[], []⟩⟩ "x") ∧
    ((RenameVisitor.candidates
        ⟨[("x", TcType.con "Bool")], ⟨[("x", ("x:1", TcType.con "Int"))], []⟩, ⟨[], []⟩⟩ "x").getLast?
      = some ("x", TcType.con "Int")) := by
  have h := c10_final_candidate [("x", TcType.con "Bool")] []
    ⟨[("x", ("x:1", TcType.con "Int"))], []⟩ ⟨[], []⟩ "x" ("x:1", TcType.con "Int") rfl
  exact ⟨rfl, h.1, h.2⟩

/-! ### Claim C5 -/

/-- C5 counterexample: a recursive let group `f u = 0 and g u = 0` (body at
location 9).  Both arguments are minted with the *let body's* location
(`expr.location`, rename.rs line 252), so the two distinct binding
occurrences — `f`'s argument and `g`'s argument — receive the *same* renamed
identity `u:9`, refuting global uniqueness (and the minted location is the
body's, not the binding's own). -/
theorem c5_counterexample :
    letBindArgName (rename [] 20 (.mk "L" (.letE
      [.mk ⟨"1", ⟨"f", .fn (.con "A") (.con "B")⟩⟩ [⟨"u", .con "A"⟩] (.mk "2" (.lit 0)),
       .mk ⟨"3", ⟨"g", .fn (.con "A") (.con "B")⟩⟩ [⟨"u", .con "A"⟩] (.mk "4" (.lit 0))]
      (.mk "9" (.lit 1))))).1 0 0 = some "u:9" ∧
    letBindArgName (rename [] 20 (.mk "L" (.letE
      [.mk ⟨"1", ⟨"f", .fn (.con "A") (.con "B")⟩⟩ [⟨"u", .con "A"⟩] (.mk "2" (.lit 0)),
       .mk ⟨"3", ⟨"g", .fn (.con "A") (.con "B")⟩⟩ [⟨"u", .con "A"⟩] (.mk "4" (.lit 0))]
      (.mk "9" (.lit 1))))).1 1 0 = some "u:9" :=
  ⟨rfl, rfl⟩

/-- C5 (amended): every binding pushed by the pass is minted deterministically
as `name ++ ":" ++ location` (where the location is the pattern's own for
pattern bindings but the enclosing expression's for lambda and recursive-let
arguments); two minted identities are distinct whenever their
`(name, location)` pairs differ and the original names are colon-free —
occurrences sharing both name and minting location collide. -/
theorem c5_minted_identity (s₁ s₂ : RenameState) (id₁ id₂ : Symb)
    (loc₁ loc₂ : Location) (t₁ t₂ : TcType) :
    (RenameVisitor.stack_var s₁ id₁ loc₁ t₁).1 = id₁ ++ ":" ++ loc₁ ∧
    (':' ∉ id₁.data → ':' ∉ id₂.data → ¬(id₁ = id₂ ∧ loc₁ = loc₂) →
      (RenameVisitor.stack_var s₁ id₁ loc₁ t₁).1 ≠ (RenameVisitor.stack_var s₂ id₂ loc₂ t₂).1) := by
  refine ⟨rfl, ?_⟩
  intro h1 h2 hne he
  exact hne (mint_inj id₁ id₂ loc₁ loc₂ h1 h2 he)

/-- Witness for `c5_minted_identity` at concrete inputs. -/
theorem c5_minted_identity_witness :
    (':' ∉ ("u" : String).data) ∧ (¬(("u" : Symb) = "u" ∧ ("1" : Location) = "2")) ∧
    (RenameVisitor.stack_var ⟨⟨[], ⟨[], []⟩, ⟨[], []⟩⟩, []⟩ "u" "1" (TcType.con "A")).1
      = "u" ++ ":" ++ "1" ∧
    (RenameVisitor.stack_var ⟨⟨[], ⟨[], []⟩, ⟨[], []⟩⟩, []⟩ "u" "1" (TcType.con "A")).1
      ≠ (RenameVisitor.stack_var ⟨⟨[], ⟨[], []⟩, ⟨[], []⟩⟩, []⟩ "u" "2" (TcType.con "A")).1 :=
  ⟨by decide, by decide,
    (c5_minted_identity ⟨⟨[], ⟨[], []⟩, ⟨[], []⟩⟩, []⟩ ⟨⟨[], ⟨[], []⟩, ⟨[], []⟩⟩, []⟩
      "u" "u" "1" "2" (TcType.con "A") (TcType.con "A")).1,
    (c5_minted_identity ⟨⟨[], ⟨[], []⟩, ⟨[], []⟩⟩, []⟩ ⟨⟨[], ⟨[], []⟩, ⟨[], []⟩⟩, []⟩
      "u" "u" "1" "2" (TcType.con "A") (TcType.con "A")).2
      (by decide) (by decide) (by decide)⟩

/-! ### Claim C4 -/

/-- C4 counterexample: a `BinOp` whose operator reference fails to resolve and
whose left operand contains its own failing reference.  One pass over the
whole node records only the operator's error and leaves the node (children
included) unvisited — the early `try!` in the `Expr::BinOp` arm skips
`visit_expr(l)` and `visit_expr(r)` — while a pass over the left child alone
shows it harbours its own `NoMatchingType`. -/
theorem c4_counterexample :
    (visit_expr 10
        (.mk "L" (.binop (.mk "l" (.ident ⟨"x", .con "B"⟩)) ⟨"p", .con "B"⟩
          (.mk "r" (.lit 0))))
        ⟨⟨[], ⟨[("p", ("p:0", .con "A")), ("x", ("x:0", .con "A"))], []⟩, ⟨[], []⟩⟩, []⟩).2.errors
      = [RenameError.NoMatchingType "p" (.con "B") [.con "A", .con "A"]] ∧
    (visit_expr 10 (.mk "l" (.ident ⟨"x", .con "B"⟩))
        ⟨⟨[], ⟨[("p", ("p:0", .con "A")), ("x", ("x:0", .con "A"))], []⟩, ⟨[], []⟩⟩, []⟩).2.errors
      = [RenameError.NoMatchingType "x" (.con "B") [.con "A", .con "A"]] ∧
    (visit_expr 10
        (.mk "L" (.binop (.mk "l" (.ident ⟨"x", .con "B"⟩)) ⟨"p", .con "B"⟩
          (.mk "r" (.lit 0))))
        ⟨⟨[], ⟨[("p", ("p:0", .con "A")), ("x", ("x:0", .con "A"))], []⟩, ⟨[], []⟩⟩, []⟩).1
      = .mk "L" (.binop (.mk "l" (.ident ⟨"x", .con "B"⟩)) ⟨"p", .con "B"⟩
          (.mk "r" (.lit 0))) :=
  ⟨rfl, rfl, rfl⟩

/-- C4 (amended): diagnostics accumulate — every visit only ever appends to
the error list, so a failure at one node never erases or suppresses errors
recorded elsewhere and traversal continues with the rest of the tree — but
within a failing node the remaining work of that node's own arm is skipped:
a `BinOp` whose operator resolution fails is returned with *both operands
untouched* and only the operator's error recorded. -/
theorem c4_error_accumulation :
    (∀ (fuel : Nat) (e : LExpr) (s : RenameState),
      ∃ es, (visit_expr fuel e s).2.errors = s.errors ++ es) ∧
    (∀ (fuel : Nat) (loc : Location) (l r : LExpr) (op : TcIdent) (s : RenameState)
      (err : RenameError),
      RenameVisitor.rename s.env op.name op.typ = Except.error err →
      visit_expr (fuel + 2) (.mk loc (.binop l op r)) s
        = (.mk loc (.binop l op r), s.pushError err)) := by
  constructor
  · intro fuel e s
    exact ((visitor_state fuel).1 e s).2.2.2
  · intro fuel loc l r op s err h
    simp only [visit_expr, rename_expr, h]

/-- Witness for `c4_error_accumulation` at the concrete counterexample
inputs. -/
theorem c4_error_accumulation_witness :
    (RenameVisitor.rename ⟨[], ⟨[("p", ("p:0", .con "A"))], []⟩, ⟨[], []⟩⟩ "p" (.con "B")
      = Except.error (RenameError.NoMatchingType "p" (.con "B") [.con "A", .con "A"])) ∧
    visit_expr 2 (.mk "L" (.binop (.mk "l" (.lit 1)) ⟨"p", .con "B"⟩ (.mk "r" (.lit 0))))
        ⟨⟨[], ⟨[("p", ("p:0", .con "A"))], []⟩, ⟨[], []⟩⟩, []⟩
      = (.mk "L" (.binop (.mk "l" (.lit 1)) ⟨"p", .con "B"⟩ (.mk "r" (.lit 0))),
        RenameState.pushError ⟨⟨[], ⟨[("p", ("p:0", .con "A"))], []⟩, ⟨[], []⟩⟩, []⟩
          (RenameError.NoMatchingType "p" (.con "B") [.con "A", .con "A"])) :=
  ⟨rfl, c4_error_accumulation.2 0 "L" (.mk "l" (.lit 1)) (.mk "r" (.lit 0)) ⟨"p", .con "B"⟩
    ⟨⟨[], ⟨[("p", ("p:0", .con "A"))], []⟩, ⟨[], []⟩⟩, []⟩
    (RenameError.NoMatchingType "p" (.con "B") [.con "A", .con "A"]) rfl⟩

/-! ### Claim C6 -/

/-- C6: processing one match alternative — which opens fresh term and
type-alias scopes, binds its pattern, visits its body and closes both scopes
— restores the term scope stack and the type-alias scope stack exactly, and
so does the whole `Expr::Match` arm: bindings introduced inside one
alternative are not visible in a sibling alternative (processed from the
restored state) nor after the match construct closes. -/
theorem c6_match_alt_isolation :
    (∀ (fuel : Nat) (scrut : LExpr) (alt : LPattern × LExpr) (s : RenameState),
      (process_alt fuel scrut alt s).2.env.stack = s.env.stack ∧
      (process_alt fuel scrut alt s).2.env.stack_types = s.env.stack_types) ∧
    (∀ (fuel : Nat) (loc : Location) (scrut : LExpr) (alts : List (LPattern × LExpr))
      (s : RenameState),
      (rename_expr fuel (.mk loc (.matchE scrut alts)) s).2.2.env.stack = s.env.stack ∧
      (rename_expr fuel (.mk loc (.matchE scrut alts)) s).2.2.env.stack_types
        = s.env.stack_types) := by
  constructor
  · intro fuel scrut alt s
    obtain ⟨h1, h2, -, -⟩ := (visitor_state fuel).2.2.1 scrut alt s
    exact ⟨h1, h2⟩
  · intro fuel loc scrut alts s
    obtain ⟨h1, h2, -, -⟩ := (visitor_state fuel).2.1 (.mk loc (.matchE scrut alts)) s
    exact ⟨h1, h2⟩

/-! ### Unfolding equations used for symbolic execution of the let arm -/

theorem rename_expr_letE (fuel : Nat) (loc : Location) (bindings : List LetBinding)
    (expr : LExpr) (s : RenameState) :
    rename_expr (fuel + 1) (.mk loc (.letE bindings expr)) s =
      (let s₁ := s.typesEnter.stackEnter
       let (bindings₁, s₂) := let_bind_loop fuel (is_recursive bindings) bindings s₁
       let (bindings₂, s₃) :=
         if is_recursive bindings then let_rec_loop fuel expr.location bindings₁ s₂
         else (bindings₁, s₂)
       let (expr', s₄) := visit_expr fuel expr s₃
       (.mk loc (.letE bindings₂ expr'), none, s₄.stackExit.typesExit)) := rfl

theorem let_bind_loop_cons (fuel : Nat) (isRec : Bool) (bind : LetBinding)
    (rest : List LetBinding) (s : RenameState) :
    let_bind_loop (fuel + 1) isRec (bind :: rest) s =
      (let (e', s₁) :=
        if isRec then (bind.expression, s) else visit_expr fuel bind.expression s
       let (pattern', s₂) := RenameVisitor.new_pattern s₁ (bind.env_type_of s₁.env) bind.name
       let (rest', s₃) := let_bind_loop fuel isRec rest s₂
       (.mk pattern' bind.arguments e' :: rest', s₃)) := rfl

theorem let_bind_loop_nil (fuel : Nat) (isRec : Bool) (s : RenameState) :
    let_bind_loop (fuel + 1) isRec [] s = ([], s) := rfl

theorem let_rec_loop_cons (fuel : Nat) (location : Location) (bind : LetBinding)
    (rest : List LetBinding) (s : RenameState) :
    let_rec_loop (fuel + 1) location (bind :: rest) s =
      (let s₁ := s.stackEnter
       let (args', s₂) := stack_args s₁ location (arg_iter bind.type_of) bind.arguments
       let (e', s₃) := visit_expr fuel bind.expression s₂
       let s₄ := s₃.stackExit
       let (rest', s₅) := let_rec_loop fuel location rest s₄
       (.mk bind.name args' e' :: rest', s₅)) := rfl

theorem let_rec_loop_nil (fuel : Nat) (location : Location) (s : RenameState) :
    let_rec_loop (fuel + 1) location [] s = ([], s) := rfl

theorem new_pattern_eq (s : RenameState) (typ : TcType) (p : LPattern) :
    RenameVisitor.new_pattern s typ p =
      (⟨p.location, ⟨p.id.name ++ ":" ++ p.location, p.id.typ⟩⟩,
       { s with env := { s.env with
          stack := s.env.stack.insert p.id.name (p.id.name ++ ":" ++ p.location, p.id.typ) } }) :=
  rfl

theorem stack_args_one (s : RenameState) (loc : Location) (t : TcType) (arg : TcIdent) :
    stack_args s loc [t] [arg] =
      ([{ arg with name := arg.name ++ ":" ++ loc }],
       (RenameVisitor.stack_var s arg.name loc t).2) := rfl

theorem let_bind_loop_cons_false (fuel : Nat) (bind : LetBinding)
    (rest : List LetBinding) (s : RenameState) :
    let_bind_loop (fuel + 1) false (bind :: rest) s =
      (let (e', s₁) := visit_expr fuel bind.expression s
       let (pattern', s₂) := RenameVisitor.new_pattern s₁ (bind.env_type_of s₁.env) bind.name
       let (rest', s₃) := let_bind_loop fuel false rest s₂
       (.mk pattern' bind.arguments e' :: rest', s₃)) := rfl

theorem let_bind_loop_cons_true (fuel : Nat) (bind : LetBinding)
    (rest : List LetBinding) (s : RenameState) :
    let_bind_loop (fuel + 1) true (bind :: rest) s =
      (let (pattern', s₂) := RenameVisitor.new_pattern s (bind.env_type_of s.env) bind.name
       let (rest', s₃) := let_bind_loop fuel true rest s₂
       (.mk pattern' bind.arguments bind.expression :: rest', s₃)) := rfl

theorem let_bind_loop_nil_all (fuel : Nat) (isRec : Bool) (s : RenameState) :
    let_bind_loop fuel isRec [] s = ([], s) := by
  cases fuel with
  | zero => rfl
  | succ f => rfl

theorem let_rec_loop_nil_all (fuel : Nat) (location : Location) (s : RenameState) :
    let_rec_loop fuel location [] s = ([], s) := by
  cases fuel with
  | zero => rfl
  | succ f => rfl

theorem stack_var_eq (s : RenameState) (id : Symb) (loc : Location) (typ : TcType) :
    RenameVisitor.stack_var s id loc typ =
      (id ++ ":" ++ loc,
       { s with env := { s.env with
          stack := s.env.stack.insert id (id ++ ":" ++ loc, typ) } }) := rfl

theorem let_rec_loop_cons_eq (fuel : Nat) (location : Location) (bind : LetBinding)
    (rest : List LetBinding) (s : RenameState) :
    let_rec_loop (fuel + 1) location (bind :: rest) s =
      (let (args', s₂) := stack_args s.stackEnter location (arg_iter bind.type_of) bind.arguments
       let (e', s₃) := visit_expr fuel bind.expression s₂
       let (rest', s₅) := let_rec_loop fuel location rest s₃.stackExit
       (.mk bind.name args' e' :: rest', s₅)) := rfl

/-! ### Claim C3 -/

/-- C3 counterexample: the non-recursive group `x = 0; y = x`.  While `y`'s
right-hand side is being processed, its sibling `x` — already visited and
bound by the interleaved loop — *is* visible: the reference to `x` inside
`y`'s right-hand side is rewritten to `x`'s minted identity `x:1`, where the
claim demands that no sibling of the group be visible there (which would have
left the reference untouched, there being no other binding for `x`). -/
theorem c3_counterexample :
    letBindRhsName (rename [] 20 (.mk "L" (.letE
      [.mk ⟨"1", ⟨"x", .con "Int"⟩⟩ [] (.mk "2" (.lit 0)),
       .mk ⟨"3", ⟨"y", .con "Int"⟩⟩ [] (.mk "4" (.ident ⟨"x", .con "Int"⟩))]
      (.mk "5" (.lit 1))))).1 1 = some "x:1" ∧ ("x:1" : Symb) ≠ "x" :=
  ⟨rfl, by decide⟩

/-- C3 (amended): in a non-recursive group each binding's right-hand
expression is traversed before that binding's own pattern name is pushed, so
its own name (and any later sibling) is not visible there — the first
binding's self-reference is left untouched — but each earlier sibling has
already been pushed by the time a later right-hand side is visited: the
second binding's reference to the first is resolved to the first's minted
identity. -/
theorem c3_nonrec_visibility (fuel : Nat) (s : RenameState) (x y : Symb) (tx ty : TcType)
    (lx ly l1 l2 lL : Location) (body : LExpr)
    (hloc : s.env.stack.get_all x = []) :
    letBindRhsName (rename_expr (fuel + 5) (.mk lL (.letE
        [.mk ⟨lx, ⟨x, tx⟩⟩ [] (.mk l1 (.ident ⟨x, tx⟩)),
         .mk ⟨ly, ⟨y, ty⟩⟩ [] (.mk l2 (.ident ⟨x, tx⟩))] body)) s).1 0 = some x ∧
    letBindRhsName (rename_expr (fuel + 5) (.mk lL (.letE
        [.mk ⟨lx, ⟨x, tx⟩⟩ [] (.mk l1 (.ident ⟨x, tx⟩)),
         .mk ⟨ly, ⟨y, ty⟩⟩ [] (.mk l2 (.ident ⟨x, tx⟩))] body)) s).1 1
      = some (x ++ ":" ++ lx) := by
  have hR : is_recursive [LetBinding.mk ⟨lx, ⟨x, tx⟩⟩ [] (.mk l1 (.ident ⟨x, tx⟩)),
      LetBinding.mk ⟨ly, ⟨y, ty⟩⟩ [] (.mk l2 (.ident ⟨x, tx⟩))] = false := rfl
  have hr1 : RenameVisitor.rename (s.typesEnter.stackEnter).env x tx = Except.ok none :=
    rename_no_locals _ x tx hloc
  have hv1 : visit_expr (fuel + 3) (LExpr.mk l1 (Expr.ident ⟨x, tx⟩)) s.typesEnter.stackEnter
      = (LExpr.mk l1 (Expr.ident ⟨x, tx⟩), s.typesEnter.stackEnter) :=
    visit_ident_noop (fuel + 1) l1 ⟨x, tx⟩ s.typesEnter.stackEnter hr1
  have hr2 : RenameVisitor.rename
      (Environment.mk (s.typesEnter.stackEnter).env.env
        ((s.typesEnter.stackEnter).env.stack.insert x (x ++ ":" ++ lx, tx))
        (s.typesEnter.stackEnter).env.stack_types) x tx
      = Except.ok (some (x ++ ":" ++ lx)) := by
    apply rename_single_local _ x _ tx tx ?_ (equivalent_refl _ tx)
    show ((s.typesEnter.stackEnter).env.stack.insert x (x ++ ":" ++ lx, tx)).get_all x = _
    rw [ScopedMap.get_all_insert_self]
    rw [show (s.typesEnter.stackEnter).env.stack.get_all x = [] from hloc]
    rfl
  have hv2 : visit_expr (fuel + 2) (LExpr.mk l2 (Expr.ident ⟨x, tx⟩))
      (RenameState.mk
        (Environment.mk (s.typesEnter.stackEnter).env.env
          ((s.typesEnter.stackEnter).env.stack.insert x (x ++ ":" ++ lx, tx))
          (s.typesEnter.stackEnter).env.stack_types)
        (s.typesEnter.stackEnter).errors)
      = (LExpr.mk l2 (Expr.ident ⟨x ++ ":" ++ lx, tx⟩),
        RenameState.mk
          (Environment.mk (s.typesEnter.stackEnter).env.env
            ((s.typesEnter.stackEnter).env.stack.insert x (x ++ ":" ++ lx, tx))
            (s.typesEnter.stackEnter).env.stack_types)
          (s.typesEnter.stackEnter).errors) :=
    visit_ident_renamed fuel l2 ⟨x, tx⟩ (x ++ ":" ++ lx) _ hr2
  rw [show fuel + 5 = (fuel + 4) + 1 from rfl]
  simp only [rename_expr_letE, hR, Bool.false_eq_true, if_false]
  rw [show fuel + 4 = (fuel + 3) + 1 from rfl]
  simp only [let_bind_loop_cons_false, LetBinding.expression, LetBinding.name,
    LetBinding.arguments, LetBinding.env_type_of, LPattern.id, LPattern.location, hv1,
    new_pattern_eq]
  rw [show fuel + 3 = (fuel + 2) + 1 from rfl]
  simp only [let_bind_loop_cons_false, LetBinding.expression, LetBinding.name,
    LetBinding.arguments, LetBinding.env_type_of, LPattern.id, LPattern.location, hv2,
    new_pattern_eq, let_bind_loop_nil_all]
  simp only [letBindRhsName]
  simp [List.getElem?_cons_zero, List.getElem?_cons_succ, LetBinding.expression]

/-- Witness for `c3_nonrec_visibility` at concrete inputs. -/
theorem c3_nonrec_visibility_witness :
    ((⟨⟨[], ⟨[], []⟩, ⟨[], []⟩⟩, []⟩ : RenameState).env.stack.get_all "x" = []) ∧
    (letBindRhsName (rename_expr 5 (.mk "L" (.letE
        [.mk ⟨"1", ⟨"x", .con "Int"⟩⟩ [] (.mk "2" (.ident ⟨"x", .con "Int"⟩)),
         .mk ⟨"3", ⟨"y", .con "Int"⟩⟩ [] (.mk "4" (.ident ⟨"x", .con "Int"⟩))]
        (.mk "5" (.lit 1)))) ⟨⟨[], ⟨[], []⟩, ⟨[], []⟩⟩, []⟩).1 0 = some "x" ∧
     letBindRhsName (rename_expr 5 (.mk "L" (.letE
        [.mk ⟨"1", ⟨"x", .con "Int"⟩⟩ [] (.mk "2" (.ident ⟨"x", .con "Int"⟩)),
         .mk ⟨"3", ⟨"y", .con "Int"⟩⟩ [] (.mk "4" (.ident ⟨"x", .con "Int"⟩))]
        (.mk "5" (.lit 1)))) ⟨⟨[], ⟨[], []⟩, ⟨[], []⟩⟩, []⟩).1 1 = some ("x" ++ ":" ++ "1")) :=
  ⟨rfl, c3_nonrec_visibility 0 ⟨⟨[], ⟨[], []⟩, ⟨[], []⟩⟩, []⟩ "x" "y" (.con "Int") (.con "Int")
    "1" "3" "2" "4" "L" (.mk "5" (.lit 1)) rfl⟩

/-! ### Claim C7 -/

/-- C7: a let group is classified as mutually recursive iff every binding has
at least one positional argument (`is_recursive`, rename.rs line 238), and
the classification is what the processing follows — observably: a
single-binding group whose binding has an argument is processed recursively
(its own name is visible in its right-hand side and gets renamed to the
minted identity), while the same group with the argument removed is processed
non-recursively (its own name is not visible and the reference stays
untouched). -/
theorem c7_recursive_classification (fuel : Nat) (s : RenameState) (f a : Symb)
    (ta : TcType) (r : Symb) (lf lr lL : Location) (body : LExpr)
    (hloc : s.env.stack.get_all f = [])
    (haf : a ≠ f) :
    (∀ bindings : List LetBinding, is_recursive bindings = true ↔
      ∀ bind ∈ bindings, bind.arguments ≠ []) ∧
    letBindRhsName (rename_expr (fuel + 4) (.mk lL (.letE
        [.mk ⟨lf, ⟨f, .fn ta (.con r)⟩⟩ [⟨a, ta⟩] (.mk lr (.ident ⟨f, .fn ta (.con r)⟩))]
        body)) s).1 0 = some (f ++ ":" ++ lf) ∧
    letBindRhsName (rename_expr (fuel + 4) (.mk lL (.letE
        [.mk ⟨lf, ⟨f, .fn ta (.con r)⟩⟩ [] (.mk lr (.ident ⟨f, .fn ta (.con r)⟩))]
        body)) s).1 0 = some f := by
  refine ⟨?_, ?_, ?_⟩
  · intro bindings
    simp [is_recursive, List.all_eq_true]
  · have hR : is_recursive [LetBinding.mk ⟨lf, ⟨f, .fn ta (.con r)⟩⟩ [⟨a, ta⟩]
        (.mk lr (.ident ⟨f, .fn ta (.con r)⟩))] = true := rfl
    have hrf : RenameVisitor.rename
        (Environment.mk s.env.env
          (((s.env.stack.enter_scope.insert f (f ++ ":" ++ lf, .fn ta (.con r))).enter_scope).insert
            a (a ++ ":" ++ body.location, ta))
          s.env.stack_types.enter_scope) f (.fn ta (.con r))
        = Except.ok (some (f ++ ":" ++ lf)) := by
      apply rename_single_local _ f _ _ _ ?_ (equivalent_refl _ _)
      show ((((s.env.stack.enter_scope.insert f
          (f ++ ":" ++ lf, TcType.fn ta (TcType.con r))).enter_scope).insert
            a (a ++ ":" ++ body.location, ta)).get_all f) = _
      rw [ScopedMap.get_all_insert_ne _ _ _ _ haf, ScopedMap.get_all_enter,
        ScopedMap.get_all_insert_self, ScopedMap.get_all_enter,
        show s.env.stack.get_all f = [] from hloc]
      rfl
    have hvf : visit_expr (fuel + 2)
        (LExpr.mk lr (Expr.ident ⟨f, .fn ta (.con r)⟩))
        (RenameState.mk
          (Environment.mk s.env.env
            (((s.env.stack.enter_scope.insert f (f ++ ":" ++ lf, .fn ta (.con r))).enter_scope).insert
              a (a ++ ":" ++ body.location, ta))
            s.env.stack_types.enter_scope)
          s.errors)
        = (LExpr.mk lr (Expr.ident ⟨f ++ ":" ++ lf, .fn ta (.con r)⟩),
          RenameState.mk
            (Environment.mk s.env.env
              (((s.env.stack.enter_scope.insert f (f ++ ":" ++ lf, .fn ta (.con r))).enter_scope).insert
                a (a ++ ":" ++ body.location, ta))
              s.env.stack_types.enter_scope)
            s.errors) :=
      visit_ident_renamed fuel lr ⟨f, .fn ta (.con r)⟩ (f ++ ":" ++ lf) _ hrf
    rw [show fuel + 4 = (fuel + 3) + 1 from rfl]
    simp only [rename_expr_letE, hR, if_true, RenameState.typesEnter, RenameState.stackEnter]
    rw [show fuel + 3 = (fuel + 2) + 1 from rfl]
    simp only [let_bind_loop_cons_true, LetBinding.expression, LetBinding.name,
      LetBinding.arguments, LetBinding.env_type_of, LetBinding.type_of, LPattern.id,
      LPattern.location, new_pattern_eq, let_bind_loop_nil_all]
    simp only [let_rec_loop_cons_eq, LetBinding.expression, LetBinding.name,
      LetBinding.arguments, LetBinding.type_of, LPattern.id, LPattern.location,
      arg_iter, stack_args_one, stack_var_eq, RenameState.stackEnter, hvf,
      let_rec_loop_nil_all]
    simp only [letBindRhsName]
    simp [List.getElem?_cons_zero, LetBinding.expression]
  · have hR : is_recursive [LetBinding.mk ⟨lf, ⟨f, .fn ta (.con r)⟩⟩ []
        (.mk lr (.ident ⟨f, .fn ta (.con r)⟩))] = false := rfl
    have hrB : RenameVisitor.rename
        (Environment.mk s.env.env s.env.stack.enter_scope s.env.stack_types.enter_scope)
        f (.fn ta (.con r)) = Except.ok none := by
      apply rename_no_locals
      show (s.env.stack.enter_scope).get_all f = []
      rw [ScopedMap.get_all_enter]
      exact hloc
    have hvB : visit_expr (fuel + 2)
        (LExpr.mk lr (Expr.ident ⟨f, .fn ta (.con r)⟩))
        (RenameState.mk
          (Environment.mk s.env.env s.env.stack.enter_scope s.env.stack_types.enter_scope)
          s.errors)
        = (LExpr.mk lr (Expr.ident ⟨f, .fn ta (.con r)⟩),
          RenameState.mk
            (Environment.mk s.env.env s.env.stack.enter_scope s.env.stack_types.enter_scope)
            s.errors) :=
      visit_ident_noop fuel lr ⟨f, .fn ta (.con r)⟩ _ hrB
    rw [show fuel + 4 = (fuel + 3) + 1 from rfl]
    simp only [rename_expr_letE, hR, Bool.false_eq_true, if_false, RenameState.typesEnter,
      RenameState.stackEnter]
    rw [show fuel + 3 = (fuel + 2) + 1 from rfl]
    simp only [let_bind_loop_cons_false, LetBinding.expression, LetBinding.name,
      LetBinding.arguments, LetBinding.env_type_of, LPattern.id, LPattern.location, hvB,
      new_pattern_eq, let_bind_loop_nil_all]
    simp only [letBindRhsName]
    simp [List.getElem?_cons_zero, LetBinding.expression]

/-- Witness for `c7_recursive_classification` at concrete inputs. -/
theorem c7_recursive_classification_witness :
    ((⟨⟨[], ⟨[], []⟩, ⟨[], []⟩⟩, []⟩ : RenameState).env.stack.get_all "f" = []) ∧
    (("a" : Symb) ≠ "f") ∧
    (letBindRhsName (rename_expr 4 (.mk "L" (.letE
        [.mk ⟨"1", ⟨"f", .fn (.con "A") (.con "B")⟩⟩ [⟨"a", .con "A"⟩]
          (.mk "2" (.ident ⟨"f", .fn (.con "A") (.con "B")⟩))]
        (.mk "9" (.lit 1)))) ⟨⟨[], ⟨[], []⟩, ⟨[], []⟩⟩, []⟩).1 0
      = some ("f" ++ ":" ++ "1")) ∧
    (letBindRhsName (rename_expr 4 (.mk "L" (.letE
        [.mk ⟨"1", ⟨"f", .fn (.con "A") (.con "B")⟩⟩ []
          (.mk "2" (.ident ⟨"f", .fn (.con "A") (.con "B")⟩))]
        (.mk "9" (.lit 1)))) ⟨⟨[], ⟨[], []⟩, ⟨[], []⟩⟩, []⟩).1 0 = some "f") := by
  have h := c7_recursive_classification 0 ⟨⟨[], ⟨[], []⟩, ⟨[], []⟩⟩, []⟩ "f" "a"
    (.con "A") "B" "1" "2" "L" (.mk "9" (.lit 1)) rfl (by decide)
  exact ⟨rfl, by decide, h.2.1, h.2.2⟩
